import Mathlib

/-!
Verification of the microtar streaming tar codec (src/microtar.c) against its
natural-language specification.  The C source is shallowly embedded: bytes are
`Nat` values below 256, C `unsigned` arithmetic is `Nat` arithmetic reduced
modulo `2^32` exactly where the C code can wrap, fallible functions return
`Except Int` carrying the C error code, and the stateful archive cursor is
modelled by explicit state passing over a record mirroring `mtar_t`, with the
caller-supplied stream operations abstracted as a state-passing operation
table.  Loops of the C source that are not structurally bounded are given an
explicit fuel argument; a result of `none` for every fuel means the C loop
does not terminate.
-/

namespace Microtar

/-- `UINT_MAX` for the 32-bit `unsigned` type used throughout microtar.c. -/
def UINT_MAX : Nat := 2 ^ 32 - 1

/-- Modulus of 32-bit unsigned arithmetic. -/
def W32 : Nat := 2 ^ 32

/-- Modelled from the spec: the error taxonomy of the interface header
(microtar.h is not under src/).  Success is 0 and every failure kind is a
distinct negative integer, since data-transfer calls return either a
nonnegative byte count or a negative error code. -/
def MTAR_ESUCCESS : Int := 0

/-- Modelled from the spec: generic failure code. -/
def MTAR_EFAILURE : Int := -1

/-- Modelled from the spec: open-failed code. -/
def MTAR_EOPENFAIL : Int := -2

/-- Modelled from the spec: read-failed code. -/
def MTAR_EREADFAIL : Int := -3

/-- Modelled from the spec: write-failed code. -/
def MTAR_EWRITEFAIL : Int := -4

/-- Modelled from the spec: seek-failed code. -/
def MTAR_ESEEKFAIL : Int := -5

/-- Modelled from the spec: seek-out-of-range code. -/
def MTAR_ESEEKRANGE : Int := -6

/-- Modelled from the spec: bad-checksum code. -/
def MTAR_EBADCHKSUM : Int := -7

/-- Modelled from the spec: null-record (archive terminator) code. -/
def MTAR_ENULLRECORD : Int := -8

/-- Modelled from the spec: not-found code. -/
def MTAR_ENOTFOUND : Int := -9

/-- Modelled from the spec: overflow code. -/
def MTAR_EOVERFLOW : Int := -10

/-- Modelled from the spec: API-misuse code. -/
def MTAR_EAPI : Int := -11

/-- Modelled from the spec: name-too-long code. -/
def MTAR_ENAMETOOLONG : Int := -12

/-- Modelled from the spec: the regular-file type tag, the USTAR byte `'0'`
(zero type bytes are normalized to it). -/
def MTAR_TREG : Nat := 48

/-- The auxiliary sequence of octal digit bytes of `v`, most significant
first; empty for 0.  Used to state what the octal printer produces and the
octal parser consumes. -/
def octalDigits : Nat → List Nat
  | 0 => []
  | v + 1 => octalDigits ((v + 1) / 8) ++ [48 + (v + 1) % 8]
decreasing_by exact Nat.div_lt_self (Nat.succ_pos v) (by norm_num)

/-- Loop of `parse_octal` (microtar.c:50): walks at most `len` bytes, stops at
a NUL byte, rejects bytes outside ASCII `'0'..'9'`, and guards the
accumulator against 32-bit overflow before each multiply and add. -/
def parse_octal_go (str : List Nat) (len : Nat) (n : Nat) : Except Int Nat :=
  match len, str with
  | 0, _ => .ok n
  | _ + 1, [] => .ok n
  | len' + 1, c :: rest =>
    if c = 0 then .ok n
    else if c < 48 ∨ 57 < c then .error MTAR_EOVERFLOW
    else if n > UINT_MAX / 8 then .error MTAR_EOVERFLOW
    else if n * 8 > UINT_MAX - (c - 48) then .error MTAR_EOVERFLOW
    else parse_octal_go rest len' (n * 8 + (c - 48))

/-- `parse_octal` (microtar.c:50). -/
def parse_octal (str : List Nat) (len : Nat) : Except Int Nat :=
  parse_octal_go str len 0

/-- Digit-emitting loop of `print_octal` (microtar.c:75): `room` is the
number of cells left before the start of the field, `acc` the bytes already
written to the right (initially the terminating NUL). -/
def print_octal_go (room : Nat) (value : Nat) (acc : List Nat) :
    Except Int (List Nat) :=
  if value = 0 then .ok (List.replicate room 48 ++ acc)
  else
    match room with
    | 0 => .error MTAR_EOVERFLOW
    | r + 1 => print_octal_go r (value / 8) ((48 + value % 8) :: acc)

/-- `print_octal` (microtar.c:75): writes the octal digits of `value`
right-to-left in a field of `len` bytes whose last byte is a NUL terminator,
zero-padding the left; fails with `MTAR_EOVERFLOW` when the digits do not
fit in `len - 1` cells. -/
def print_octal (len : Nat) (value : Nat) : Except Int (List Nat) :=
  print_octal_go (len - 1) value [0]

/-- `checksum` (microtar.c:142): 256 plus the sum of the raw bytes before the
checksum field (offsets 0..147) plus the sum from the type byte on (offsets
156..511), in 32-bit unsigned arithmetic. -/
def checksum (raw : List Nat) : Nat :=
  (256 + (raw.take 148).sum + (raw.drop 156).sum) % W32

/-- Effect of `strncpy(dst, src, n)` on an `n`-byte field: the source string
truncated to `n` bytes, NUL-padded on the right up to `n`. -/
def strncpyField (src : List Nat) (n : Nat) : List Nat :=
  src.take n ++ List.replicate (n - src.length) 0

/-- Reading a NUL-terminated C string out of a byte buffer: the bytes before
the first NUL. -/
def cstr (l : List Nat) : List Nat :=
  l.takeWhile (fun b => b != 0)

/-- One step of the octal accumulator: previous value times 8 plus the digit
value of byte `d`. -/
def odigStep (a d : Nat) : Nat := a * 8 + (d - 48)

/-- The contents of an octal field of `len` bytes holding value `v` as the
printer lays it out: zero padding, the significant digits, and the NUL
terminator. -/
def octField (len v : Nat) : List Nat :=
  List.replicate (len - 1 - (octalDigits v).length) 48 ++ octalDigits v ++ [0]

/-- `mtar_header_t` of the interface header.  The `name` and `linkname`
char-array fields are modelled by the byte lists of the NUL-terminated
strings they hold (terminator excluded); the numeric fields are C `unsigned`
values and `type` is the type tag byte. -/
structure MtarHeader where
  mode : Nat
  owner : Nat
  group : Nat
  size : Nat
  mtime : Nat
  type : Nat
  name : List Nat
  linkname : List Nat
deriving DecidableEq, Repr

/-- Assembly of a 512-byte raw header block from its consecutive fields:
name (100), mode (8), owner (8), group (8), size (12), mtime (12), checksum
(8), type (1), linkname (100), padding (255). -/
def assemble (na mo ow gr sz mt ck ty li pa : List Nat) : List Nat :=
  na ++ mo ++ ow ++ gr ++ sz ++ mt ++ ck ++ ty ++ li ++ pa

/-- `header_to_raw` (microtar.c:196): prints the numeric fields in octal (in
the C order, so the first overflow wins), copies name/linkname with
`strncpy`, normalizes a zero type byte to `MTAR_TREG`, then computes the
checksum over the block (the checksum field itself is skipped) and prints it
into 7 bytes followed by a literal space. -/
def header_to_raw (h : MtarHeader) : Except Int (List Nat) := do
  let mo ← print_octal 8 h.mode
  let ow ← print_octal 8 h.owner
  let gr ← print_octal 8 h.group
  let sz ← print_octal 12 h.size
  let mt ← print_octal 12 h.mtime
  let ty := if h.type = 0 then MTAR_TREG else h.type
  let na := strncpyField h.name 100
  let li := strncpyField h.linkname 100
  let raw0 := assemble na mo ow gr sz mt (List.replicate 8 0) [ty] li
      (List.replicate 255 0)
  let ck ← print_octal 7 (checksum raw0)
  .ok (assemble na mo ow gr sz mt (ck ++ [32]) [ty] li (List.replicate 255 0))

/-- `raw_to_header` (microtar.c:156): reports a null record when the first
byte of the checksum field is NUL, otherwise parses and verifies the
checksum, parses the numeric fields, normalizes a zero type byte, and copies
out the NUL-terminated name and linkname. -/
def raw_to_header (raw : List Nat) : Except Int MtarHeader := do
  if raw.getD 148 0 = 0 then .error MTAR_ENULLRECORD
  else do
    let ck ← parse_octal ((raw.drop 148).take 8) 8
    if ck ≠ checksum raw then .error MTAR_EBADCHKSUM
    else do
      let mo ← parse_octal ((raw.drop 100).take 8) 8
      let ow ← parse_octal ((raw.drop 108).take 8) 8
      let gr ← parse_octal ((raw.drop 116).take 8) 8
      let sz ← parse_octal ((raw.drop 124).take 12) 12
      let mt ← parse_octal ((raw.drop 136).take 12) 12
      let ty0 := raw.getD 156 0
      let ty := if ty0 = 0 then MTAR_TREG else ty0
      .ok ⟨mo, ow, gr, sz, mt, ty, cstr (raw.take 100),
        cstr ((raw.drop 157).take 100)⟩

/-- The caller-supplied stream operation table (`mtar_ops_t`), abstracted
over a stream-state type `σ`.  Each operation returns the C status code and
the stream's next state; the byte counts passed by the cursor are visible to
the stream, the transferred bytes themselves carry no information the
claims need. -/
structure MtarOps (σ : Type) where
  read : σ → Nat → Int × σ
  write : σ → Nat → Int × σ
  seek : σ → Nat → Int × σ
  close : σ → Int × σ

/-- The state flag bits of `mtar_t::state` (microtar.c:28). -/
structure MtarState where
  headerValid : Bool
  wroteHeader : Bool
  wroteData : Bool
  wroteDataEof : Bool
  wroteFinalize : Bool
deriving DecidableEq, Repr

/-- The access mode a cursor was bound with (`MTAR_READ` / `MTAR_WRITE`). -/
inductive MtarAccess where
  | read
  | write
deriving DecidableEq, Repr

/-- `mtar_t` minus the stream handle and operation table, which are passed
separately: access mode, state flags, tracked absolute position, offset of
the current header, and the current decoded header. -/
structure Mtar where
  access : MtarAccess
  state : MtarState
  pos : Nat
  header_pos : Nat
  header : MtarHeader
deriving DecidableEq, Repr

/-- 32-bit unsigned addition. -/
def uadd (a b : Nat) : Nat := (a + b) % W32

/-- 32-bit unsigned subtraction (two's complement wraparound). -/
def usub (a b : Nat) : Nat := (a % W32 + (W32 - b % W32)) % W32

/-- Adding a C `int` to a 32-bit unsigned value, as the C usual arithmetic
conversions do. -/
def uaddInt (a : Nat) (b : Int) : Nat := (((a : Int) + b).emod (W32 : Int)).toNat

/-- Modelled from the spec: the standard `SEEK_SET` whence value. -/
def SEEK_SET : Int := 0

/-- Modelled from the spec: the standard `SEEK_CUR` whence value. -/
def SEEK_CUR : Int := 1

/-- Modelled from the spec: the standard `SEEK_END` whence value. -/
def SEEK_END : Int := 2

/-- `round_up_512` (microtar.c:100): `(n + 511u) & ~511u` in 32-bit
unsigned arithmetic. -/
def round_up_512 (n : Nat) : Nat := ((n + 511) % W32) / 512 * 512

/-- `tread` (microtar.c:105): calls the stream read, then advances the
tracked position by the full requested size whatever the stream reported. -/
def tread {σ : Type} (ops : MtarOps σ) (tar : Mtar) (s : σ) (size : Nat) :
    Int × Mtar × σ :=
  let r := ops.read s size
  (r.1, { tar with pos := (tar.pos + size) % W32 }, r.2)

/-- `twrite` (microtar.c:112): calls the stream write, then advances the
tracked position by the full requested size whatever the stream reported. -/
def twrite {σ : Type} (ops : MtarOps σ) (tar : Mtar) (s : σ) (size : Nat) :
    Int × Mtar × σ :=
  let r := ops.write s size
  (r.1, { tar with pos := (tar.pos + size) % W32 }, r.2)

/-- `tseek` (microtar.c:119): calls the stream seek, then sets the tracked
position to the target whatever the stream reported. -/
def tseek {σ : Type} (ops : MtarOps σ) (tar : Mtar) (s : σ) (p : Nat) :
    Int × Mtar × σ :=
  let r := ops.seek s p
  (r.1, { tar with pos := p }, r.2)

/-- `write_null_bytes` (microtar.c:126), with explicit fuel for its `while`
loop.  The loop writes chunks of at most 512 bytes (the scratch buffer size,
per the spec) but, exactly as in the source, never decreases `count`; a
result of `none` for every fuel value means the C loop runs forever. -/
def write_null_bytes {σ : Type} (ops : MtarOps σ) (fuel : Nat) (tar : Mtar)
    (s : σ) (count : Nat) : Option (Int × Mtar × σ) :=
  if count = 0 then some (MTAR_ESUCCESS, tar, s)
  else
    match fuel with
    | 0 => none
    | f + 1 =>
      let n := min count 512
      let r := twrite ops tar s n
      if r.1 ≠ 0 then some (r.1, r.2.1, r.2.2)
      else write_null_bytes ops f r.2.1 r.2.2 count

/-- `data_beg_pos` (microtar.c:262). -/
def data_beg_pos (tar : Mtar) : Nat := uadd tar.header_pos 512

/-- `data_end_pos` (microtar.c:267). -/
def data_end_pos (tar : Mtar) : Nat := uadd (data_beg_pos tar) tar.header.size

/-- `ensure_eof` (microtar.c:249): pads the current entry's data up to the
next 512-byte boundary once data has been written and not yet padded. -/
def ensure_eof {σ : Type} (ops : MtarOps σ) (fuel : Nat) (tar : Mtar)
    (s : σ) : Option (Int × Mtar × σ) :=
  if !tar.state.wroteData || tar.state.wroteDataEof then
    some (MTAR_ESUCCESS, tar, s)
  else
    match write_null_bytes ops fuel tar s (usub (round_up_512 tar.pos) tar.pos) with
    | none => none
    | some (err, tar, s) =>
      if err ≠ 0 then some (err, tar, s)
      else some (MTAR_ESUCCESS,
        { tar with state := { tar.state with wroteDataEof := true } }, s)

/-- `mtar_write_header` (microtar.c:473). -/
def mtar_write_header {σ : Type} (ops : MtarOps σ) (fuel : Nat) (tar : Mtar)
    (s : σ) (h : MtarHeader) : Option (Int × Mtar × σ) :=
  if tar.access ≠ MtarAccess.write then some (MTAR_EAPI, tar, s)
  else if tar.state.wroteFinalize then some (MTAR_EAPI, tar, s)
  else
    match ensure_eof ops fuel tar s with
    | none => none
    | some (err, tar, s) =>
      if err ≠ 0 then some (err, tar, s)
      else
        let tar := { tar with
          state := { tar.state with
            wroteHeader := false, wroteData := false, wroteDataEof := false },
          header := h }
        match header_to_raw h with
        | .error e => some (e, tar, s)
        | .ok _ =>
          let r := twrite ops tar s 512
          if r.1 ≠ 0 then some (r.1, r.2.1, r.2.2)
          else some (MTAR_ESUCCESS,
            { r.2.1 with state := { r.2.1.state with wroteHeader := true } },
            r.2.2)

/-- `mtar_write_data` (microtar.c:536), embedded exactly as written: note
that line 547 computes `data_left` as `tar->pos - data_end` (in wrapping
unsigned arithmetic), and that `(int)size` is the value returned on
success. -/
def mtar_write_data {σ : Type} (ops : MtarOps σ) (tar : Mtar) (s : σ)
    (size : Nat) : Int × Mtar × σ :=
  if !tar.state.wroteHeader || tar.state.wroteFinalize then (MTAR_EAPI, tar, s)
  else
    let data_end := data_end_pos tar
    if tar.pos ≥ data_end then (0, tar, s)
    else
      let data_left := usub tar.pos data_end
      let size := if size > data_left then data_left else size
      let tar := if size > 0 then
          { tar with state := { tar.state with wroteData := true } }
        else tar
      let r := twrite ops tar s size
      if r.1 ≠ 0 then (r.1, r.2.1, r.2.2)
      else ((size : Int), r.2.1, r.2.2)

/-- `mtar_finalize` (microtar.c:560): on a write cursor not yet finalized,
pads the last entry, sets the finalized flag, then writes the 1024-byte
terminator. -/
def mtar_finalize {σ : Type} (ops : MtarOps σ) (fuel : Nat) (tar : Mtar)
    (s : σ) : Option (Int × Mtar × σ) :=
  if tar.access ≠ MtarAccess.write then some (MTAR_EAPI, tar, s)
  else if tar.state.wroteFinalize then some (MTAR_ESUCCESS, tar, s)
  else
    match ensure_eof ops fuel tar s with
    | none => none
    | some (err, tar, s) =>
      if err ≠ 0 then some (err, tar, s)
      else
        let tar := { tar with state := { tar.state with wroteFinalize := true } }
        write_null_bytes ops fuel tar s 1024

/-- `mtar_close` (microtar.c:301): finalizes first on a write cursor, then
closes the stream; the finalize error takes precedence. -/
def mtar_close {σ : Type} (ops : MtarOps σ) (fuel : Nat) (tar : Mtar)
    (s : σ) : Option (Int × Mtar × σ) :=
  match (if tar.access = MtarAccess.write then mtar_finalize ops fuel tar s
         else some (MTAR_ESUCCESS, tar, s)) with
  | none => none
  | some (err1, tar, s) =>
    let r := ops.close s
    some (if err1 ≠ 0 then err1 else r.1, tar, r.2)

/-- `mtar_seek_data` (microtar.c:421), embedded exactly as written: note
that the `SEEK_SET` arm checks only `offset < 0` before seeking to
`data_beg + offset`. -/
def mtar_seek_data {σ : Type} (ops : MtarOps σ) (tar : Mtar) (s : σ)
    (offset : Int) (whence : Int) : Int × Mtar × σ :=
  if tar.access ≠ MtarAccess.read then (MTAR_EAPI, tar, s)
  else if !tar.state.headerValid then (MTAR_EAPI, tar, s)
  else
    let data_beg := data_beg_pos tar
    let data_end := data_end_pos tar
    if whence = SEEK_SET then
      if offset < 0 then (MTAR_ESEEKRANGE, tar, s)
      else tseek ops tar s (uadd data_beg offset.toNat)
    else if whence = SEEK_CUR then
      if (0 < offset ∧ usub data_end tar.pos < offset.toNat) ∨
         (offset < 0 ∧ usub tar.pos data_beg < (-offset).toNat) then
        (MTAR_ESEEKRANGE, tar, s)
      else tseek ops tar s (uaddInt tar.pos offset)
    else if whence = SEEK_END then
      if 0 < offset then (MTAR_ESEEKRANGE, tar, s)
      else tseek ops tar s (uaddInt data_end offset)
    else (MTAR_EAPI, tar, s)

/-- A stream whose operations always succeed and carry no state. -/
def okOps : MtarOps Unit :=
  ⟨fun s _ => (0, s), fun s _ => (0, s), fun s _ => (0, s), fun s => (0, s)⟩

/-- A stream recording the byte count of every write it is asked for. -/
def traceOps : MtarOps (List Nat) :=
  ⟨fun s _ => (0, s), fun s n => (0, s ++ [n]), fun s _ => (0, s),
   fun s => (0, s)⟩

/-- A stream whose writes always fail with `MTAR_EWRITEFAIL`. -/
def failWriteOps : MtarOps Unit :=
  ⟨fun s _ => (0, s), fun s _ => (MTAR_EWRITEFAIL, s), fun s _ => (0, s),
   fun s => (0, s)⟩

/-- An all-zero header record. -/
def hdr0 : MtarHeader := ⟨0, 0, 0, 0, 0, 0, [], []⟩

/-- A header record declaring a one-byte entry. -/
def hdrS1 : MtarHeader := ⟨0, 0, 0, 1, 0, 48, [], []⟩

/-- A regular-file header record with small nonzero fields, name `"ab"` and
linkname `"c"`. -/
def hdr1 : MtarHeader := ⟨420, 7, 7, 5, 99, 48, [97, 98], [99]⟩

/-- A freshly bound write-mode cursor. -/
def tarW0 : Mtar := ⟨.write, ⟨false, false, false, false, false⟩, 0, 0, hdr0⟩

/-- A write-mode cursor that has just written the header of a one-byte entry
at offset 0: position 512, at the start of the entry's data. -/
def tarW1 : Mtar := ⟨.write, ⟨false, true, false, false, false⟩, 512, 0, hdrS1⟩

/-- A write-mode cursor that has been finalized. -/
def tarFin : Mtar := ⟨.write, ⟨false, false, false, false, true⟩, 0, 0, hdr0⟩

/-- A read-mode cursor holding a valid header of a zero-size entry at offset
0, positioned at the start of the entry's data. -/
def tarR0 : Mtar := ⟨.read, ⟨true, false, false, false, false⟩, 512, 0, hdr0⟩

/-- The encoded block of the all-zero header record. -/
def raw0 : List Nat := (header_to_raw hdr0).toOption.getD []

/-- C1: the claim states that `mtar_write_data` on an entry of declared size
`S` clamps the request to `data_end - pos` and never writes past the
declared data end.  The code computes `data_left = tar->pos - data_end`
(microtar.c:547) with the operands reversed, so the clamp is ineffective:
on a one-byte entry with the cursor at the data start, a two-byte write is
passed to the stream whole, returns 2, and leaves the cursor one byte past
the declared data end, contradicting the claim and the comment at
microtar.c:541. -/
theorem mtar_write_data_overrun_bug :
    mtar_write_data traceOps tarW1 [] 2 =
      (2, { tarW1 with
              state := { tarW1.state with wroteData := true }, pos := 514 },
        [2]) ∧
    data_end_pos tarW1 = 513 ∧ tarW1.pos = 512 := by
  decide

/-- C3: the claim states that `mtar_seek_data` rejects a `SEEK_SET` offset
greater than the entry's declared size with the seek-range error.  The
`SEEK_SET` arm (microtar.c:433) checks only `offset < 0`, so on a zero-size
entry whose data region is `[512, 512]`, seeking to offset 7 succeeds and
moves the cursor to 519, outside the data region, contradicting the claim. -/
theorem mtar_seek_data_set_unbounded_bug :
    mtar_seek_data okOps tarR0 () 7 SEEK_SET =
      (MTAR_ESUCCESS, { tarR0 with pos := 519 }, ()) ∧
    data_end_pos tarR0 = 512 ∧ MTAR_ESUCCESS ≠ MTAR_ESEEKRANGE := by
  decide

/-- C6: calling `writeData` before any header has been written returns the
API-misuse error with the cursor and stream untouched, and calling
`writeHeader` after finalize returns the API-misuse error with the cursor
and stream untouched. -/
theorem write_guards_api_misuse :
    (∀ (σ : Type) (ops : MtarOps σ) (tar : Mtar) (s : σ) (size : Nat),
      tar.state.wroteHeader = false →
      mtar_write_data ops tar s size = (MTAR_EAPI, tar, s)) ∧
    (∀ (σ : Type) (ops : MtarOps σ) (fuel : Nat) (tar : Mtar) (s : σ)
      (h : MtarHeader),
      tar.access = MtarAccess.write → tar.state.wroteFinalize = true →
      mtar_write_header ops fuel tar s h = some (MTAR_EAPI, tar, s)) := by
  constructor
  · intro σ ops tar s size h
    simp [mtar_write_data, h]
  · intro σ ops fuel tar s h hacc hfin
    simp [mtar_write_header, hacc, hfin]

/-- C6 witness: the two guards at concrete cursors. -/
theorem write_guards_api_misuse_witness :
    mtar_write_data okOps tarW0 () 10 = (MTAR_EAPI, tarW0, ()) ∧
    mtar_write_header okOps 3 tarFin () hdr0 = some (MTAR_EAPI, tarFin, ()) :=
  ⟨write_guards_api_misuse.1 Unit okOps tarW0 () 10 rfl,
   write_guards_api_misuse.2 Unit okOps 3 tarFin () hdr0 rfl rfl⟩

/-- C7: whenever the first byte of the checksum field (offset 148) is NUL,
the decoder reports the null record (end-of-archive) error, whatever the
rest of the block holds — in particular it never reaches the checksum
computation or comparison, so an all-zero block is `MTAR_ENULLRECORD`, not
`MTAR_EBADCHKSUM`. -/
theorem null_record_recognition (raw : List Nat) (h : raw.getD 148 0 = 0) :
    raw_to_header raw = .error MTAR_ENULLRECORD := by
  unfold raw_to_header
  rw [if_pos h]

/-- C7 witness: the all-zero 512-byte block decodes to the null-record
error. -/
theorem null_record_recognition_witness :
    (List.replicate 512 0).getD 148 0 = 0 ∧
    raw_to_header (List.replicate 512 0) = .error MTAR_ENULLRECORD :=
  ⟨by decide, null_record_recognition (List.replicate 512 0) (by decide)⟩

/-- C9: the stream wrappers update the tracked position unconditionally —
`tread` and `twrite` advance it by the full requested size and `tseek` sets
it to the target, in 32-bit unsigned arithmetic, for every stream operation
table, including ones that report failure; the stream's status code is
propagated unchanged alongside. -/
theorem stream_wrappers_update_pos (σ : Type) (ops : MtarOps σ) (tar : Mtar)
    (s : σ) (size p : Nat) :
    tread ops tar s size =
      ((ops.read s size).1, { tar with pos := (tar.pos + size) % W32 },
        (ops.read s size).2) ∧
    twrite ops tar s size =
      ((ops.write s size).1, { tar with pos := (tar.pos + size) % W32 },
        (ops.write s size).2) ∧
    tseek ops tar s p =
      ((ops.seek s p).1, { tar with pos := p }, (ops.seek s p).2) :=
  ⟨rfl, rfl, rfl⟩

/-- With an always-succeeding stream, the `write_null_bytes` loop never
finishes for a nonzero count: the source (microtar.c:132) never decreases
`count`, so no amount of fuel completes the call. -/
theorem write_null_bytes_okOps_none (fuel : Nat) :
    ∀ (tar : Mtar) (count : Nat), count ≠ 0 →
      write_null_bytes okOps fuel tar () count = none := by
  induction fuel with
  | zero =>
    intro tar count hc
    simp [write_null_bytes, hc]
  | succ f ih =>
    intro tar count hc
    simp only [write_null_bytes, hc, if_neg, if_false, twrite, okOps]
    simpa using ih _ count hc

/-- C2: the claim states every cursor operation returns, assuming the
stream operations return.  `write_null_bytes` (microtar.c:132) never
decreases `count` inside its loop, so `mtar_finalize` on a fresh write-mode
cursor with an always-succeeding stream calls the stream write forever: the
fuelled model returns `none` for every fuel bound, contradicting the claim
and the spec's promise that no operation blocks indefinitely. -/
theorem mtar_finalize_diverges_bug :
    ∀ fuel : Nat, mtar_finalize okOps fuel tarW0 () = none := by
  intro fuel
  have h := write_null_bytes_okOps_none fuel
    { tarW0 with state := { tarW0.state with wroteFinalize := true } }
    1024 (by decide)
  simpa [mtar_finalize, ensure_eof, tarW0, hdr0] using h

/-- C10: `mtar_finalize` sets the finalized flag before writing the
terminator (microtar.c:571): if the first terminator write fails, the error
is reported but the cursor stays finalized, so every later `mtar_finalize`
returns success at once without touching the stream, and `mtar_close` only
performs the stream close. -/
theorem finalize_flag_not_rolled_back (σ : Type) (ops : MtarOps σ)
    (tar : Mtar) (s : σ) (fuel : Nat)
    (hacc : tar.access = MtarAccess.write)
    (hfin : tar.state.wroteFinalize = false)
    (heof : tar.state.wroteData = false ∨ tar.state.wroteDataEof = true)
    (hfail : (ops.write s 512).1 ≠ 0) :
    ∃ tar' : Mtar,
      mtar_finalize ops (fuel + 1) tar s =
        some ((ops.write s 512).1, tar', (ops.write s 512).2) ∧
      tar'.state.wroteFinalize = true ∧
      (∀ f2 : Nat, mtar_finalize ops f2 tar' (ops.write s 512).2 =
        some (MTAR_ESUCCESS, tar', (ops.write s 512).2)) ∧
      (∀ f2 : Nat, mtar_close ops f2 tar' (ops.write s 512).2 =
        some ((ops.close (ops.write s 512).2).1, tar',
          (ops.close (ops.write s 512).2).2)) := by
  have heof' : (!tar.state.wroteData || tar.state.wroteDataEof) = true := by
    rcases heof with h | h <;> simp [h]
  refine ⟨{ tar with
      state := { tar.state with wroteFinalize := true },
      pos := (tar.pos + 512) % W32 }, ?_, rfl, ?_, ?_⟩
  · simp [mtar_finalize, hacc, hfin, ensure_eof, heof', write_null_bytes,
      twrite, hfail, MTAR_ESUCCESS]
  · intro f2
    simp [mtar_finalize, hacc]
  · intro f2
    simp [mtar_close, mtar_finalize, hacc, MTAR_ESUCCESS]

/-- C10 witness: a fresh write cursor over a stream whose writes fail. -/
theorem finalize_flag_not_rolled_back_witness :
    ∃ tar' : Mtar,
      mtar_finalize failWriteOps 1 tarW0 () =
        some ((failWriteOps.write () 512).1, tar', (failWriteOps.write () 512).2) ∧
      tar'.state.wroteFinalize = true ∧
      (∀ f2 : Nat, mtar_finalize failWriteOps f2 tar' (failWriteOps.write () 512).2 =
        some (MTAR_ESUCCESS, tar', (failWriteOps.write () 512).2)) ∧
      (∀ f2 : Nat, mtar_close failWriteOps f2 tar' (failWriteOps.write () 512).2 =
        some ((failWriteOps.close (failWriteOps.write () 512).2).1, tar',
          (failWriteOps.close (failWriteOps.write () 512).2).2)) :=
  finalize_flag_not_rolled_back Unit failWriteOps tarW0 () 0 rfl rfl
    (Or.inl rfl) (by decide)

/-- The octal digit list of `v` is empty exactly for `v = 0`. -/
theorem octalDigits_eq_nil (v : Nat) : octalDigits v = [] ↔ v = 0 := by
  cases v with
  | zero => simp [octalDigits]
  | succ w => simp [octalDigits]

/-- Every octal digit byte is in ASCII `'0'..'7'`. -/
theorem octalDigits_mem (v : Nat) : ∀ d ∈ octalDigits v, 48 ≤ d ∧ d ≤ 55 := by
  induction v using Nat.strong_induction_on with
  | _ v ih =>
    cases v with
    | zero => simp [octalDigits]
    | succ w =>
      intro d hd
      rw [octalDigits] at hd
      rcases List.mem_append.mp hd with hm | hm
      · exact ih _ (Nat.div_lt_self (Nat.succ_pos w) (by norm_num)) d hm
      · have : d = 48 + (w + 1) % 8 := by simpa using hm
        have h8 : (w + 1) % 8 < 8 := Nat.mod_lt _ (by norm_num)
        omega

/-- The octal digit count of `v` fits in `k` cells exactly when `v < 8^k`. -/
theorem octalDigits_length_le (k : Nat) :
    ∀ v : Nat, (octalDigits v).length ≤ k ↔ v < 8 ^ k := by
  induction k with
  | zero =>
    intro v
    simp only [Nat.le_zero, List.length_eq_zero, octalDigits_eq_nil, pow_zero,
      Nat.lt_one_iff]
  | succ k ih =>
    intro v
    cases v with
    | zero => simp [octalDigits]
    | succ w =>
      rw [octalDigits]
      simp only [List.length_append, List.length_singleton]
      constructor
      · intro h
        have h1 : (octalDigits ((w + 1) / 8)).length ≤ k := by omega
        have h2 := (ih ((w + 1) / 8)).mp h1
        have h3 := (Nat.div_lt_iff_lt_mul (by norm_num : 0 < 8)).mp h2
        calc w + 1 < 8 ^ k * 8 := h3
          _ = 8 ^ (k + 1) := (pow_succ 8 k).symm
      · intro h
        have h1 : w + 1 < 8 ^ k * 8 := by rw [← pow_succ]; exact h
        have h2 := (Nat.div_lt_iff_lt_mul (by norm_num : 0 < 8)).mpr h1
        have h3 := (ih ((w + 1) / 8)).mpr h2
        omega

/-- Accumulating ASCII zeros leaves the octal accumulator unchanged. -/
theorem foldl_odig_replicate (k : Nat) :
    List.foldl odigStep 0 (List.replicate k 48) = 0 := by
  induction k with
  | zero => rfl
  | succ n ih => simpa [List.replicate_succ, odigStep] using ih

/-- Folding the octal step over the digit list of `v` recovers `v`. -/
theorem foldl_odig_digits (v : Nat) :
    List.foldl odigStep 0 (octalDigits v) = v := by
  induction v using Nat.strong_induction_on with
  | _ v ih =>
    cases v with
    | zero => simp [octalDigits]
    | succ w =>
      rw [octalDigits, List.foldl_append,
        ih _ (Nat.div_lt_self (Nat.succ_pos w) (by norm_num))]
      simp only [List.foldl_cons, List.foldl_nil, odigStep]
      omega

/-- The octal accumulator never decreases. -/
theorem le_foldl_odig (ds : List Nat) :
    ∀ n : Nat, n ≤ List.foldl odigStep n ds := by
  induction ds with
  | nil => intro n; exact le_refl n
  | cons d ds ih =>
    intro n
    calc n ≤ odigStep n d := by unfold odigStep; omega
      _ ≤ List.foldl odigStep (odigStep n d) ds := ih _
      _ = List.foldl odigStep n (d :: ds) := rfl

/-- The parse loop consumes a run of ASCII digits, folding them into the
accumulator, provided the field is long enough and the resulting value does
not exceed `UINT_MAX` (so none of the code's overflow guards fires). -/
theorem parse_octal_go_digits (ds : List Nat) :
    ∀ (rest : List Nat) (len n : Nat),
      (∀ d ∈ ds, 48 ≤ d ∧ d ≤ 57) → ds.length ≤ len →
      List.foldl odigStep n ds ≤ UINT_MAX →
      parse_octal_go (ds ++ rest) len n =
        parse_octal_go rest (len - ds.length) (List.foldl odigStep n ds) := by
  induction ds with
  | nil => intro rest len n _ _ _; simp
  | cons d ds ih =>
    intro rest len n hd hlen hbound
    obtain ⟨len', rfl⟩ : ∃ l, len = l + 1 :=
      ⟨len - 1, by simp at hlen; omega⟩
    have hd0 := hd d (List.mem_cons_self d ds)
    have hstep : odigStep n d ≤ List.foldl odigStep n (d :: ds) :=
      le_foldl_odig ds (odigStep n d)
    have hstepb : n * 8 + (d - 48) ≤ UINT_MAX := by
      have := le_trans hstep hbound
      simpa [odigStep] using this
    have hg1 : ¬ n > UINT_MAX / 8 := by
      simp only [not_lt]
      exact (Nat.le_div_iff_mul_le (by norm_num : 0 < 8)).mpr (by omega)
    have hg2 : ¬ n * 8 > UINT_MAX - (d - 48) := by omega
    have hne : ¬ d = 0 := by omega
    have hdig : ¬ (d < 48 ∨ 57 < d) := by omega
    rw [List.cons_append, parse_octal_go]
    simp only [hne, if_false, hdig, hg1, hg2]
    rw [ih rest len' (n * 8 + (d - 48)) (fun x hx => hd x (List.mem_cons_of_mem d hx))
      (by simp at hlen; omega) (by simpa [odigStep] using hbound)]
    simp [odigStep]

/-- Parsing a zero-padded octal rendering of `v` followed by a NUL (and
anything after it) inside a `len`-byte field yields exactly `v`. -/
theorem parse_octal_padded (k v : Nat) (rest : List Nat) (len : Nat)
    (hv : v ≤ UINT_MAX) (hlen : k + (octalDigits v).length ≤ len) :
    parse_octal (List.replicate k 48 ++ octalDigits v ++ 0 :: rest) len =
      .ok v := by
  have hds : ∀ d ∈ List.replicate k 48 ++ octalDigits v, 48 ≤ d ∧ d ≤ 57 := by
    intro d hd
    rcases List.mem_append.mp hd with hm | hm
    · rcases (List.mem_replicate.mp hm) with ⟨_, rfl⟩; omega
    · have := octalDigits_mem v d hm; omega
  have hfold : List.foldl odigStep 0 (List.replicate k 48 ++ octalDigits v) = v := by
    rw [List.foldl_append, foldl_odig_replicate, foldl_odig_digits]
  have hlen' : (List.replicate k 48 ++ octalDigits v).length ≤ len := by
    simpa using hlen
  rw [parse_octal]
  rw [parse_octal_go_digits _ (0 :: rest) len 0 hds hlen' (by rw [hfold]; exact hv)]
  rw [hfold]
  cases h : len - (List.replicate k 48 ++ octalDigits v).length with
  | zero => rw [parse_octal_go]
  | succ m => rw [parse_octal_go]; simp

/-- Full characterization of the digit-printing loop: it succeeds exactly
when the digits fit in `room` cells, producing zero padding, the digits, and
the accumulator. -/
theorem print_octal_go_eq (room : Nat) : ∀ (v : Nat) (acc : List Nat),
    print_octal_go room v acc =
      if (octalDigits v).length ≤ room then
        .ok (List.replicate (room - (octalDigits v).length) 48 ++
          octalDigits v ++ acc)
      else .error MTAR_EOVERFLOW := by
  induction room with
  | zero =>
    intro v acc
    cases v with
    | zero => simp [print_octal_go, octalDigits]
    | succ w =>
      rw [print_octal_go]
      simp only [Nat.succ_ne_zero, if_false, octalDigits]
      simp
  | succ r ih =>
    intro v acc
    cases v with
    | zero => simp [print_octal_go, octalDigits]
    | succ w =>
      rw [print_octal_go]
      simp only [Nat.succ_ne_zero, if_false]
      rw [ih]
      rw [octalDigits]
      simp only [List.length_append, List.length_singleton]
      by_cases hc : (octalDigits ((w + 1) / 8)).length ≤ r
      · rw [if_pos hc, if_pos (by omega)]
        have hrep : r + 1 - ((octalDigits ((w + 1) / 8)).length + 1) =
            r - (octalDigits ((w + 1) / 8)).length := by omega
        rw [hrep]
        simp [List.append_assoc]
      · rw [if_neg hc, if_neg (by omega)]

/-- Characterization of `print_octal` on a `len`-byte field. -/
theorem print_octal_eq (len v : Nat) :
    print_octal len v =
      if (octalDigits v).length ≤ len - 1 then .ok (octField len v)
      else .error MTAR_EOVERFLOW :=
  print_octal_go_eq (len - 1) v [0]

/-- Inversion for a successful octal print: the digits fit and the field
has the printer's layout and the full field length. -/
theorem print_octal_ok_inv (len v : Nat) (f : List Nat) (hlen : 1 ≤ len)
    (h : print_octal len v = .ok f) :
    (octalDigits v).length ≤ len - 1 ∧ f = octField len v ∧ f.length = len := by
  rw [print_octal_eq] at h
  by_cases hc : (octalDigits v).length ≤ len - 1
  · rw [if_pos hc] at h
    have hf : f = octField len v := by
      injection h with h'; exact h'.symm
    refine ⟨hc, hf, ?_⟩
    rw [hf]
    simp only [octField, List.length_append, List.length_replicate,
      List.length_singleton]
    omega
  · rw [if_neg hc] at h
    exact absurd h (by simp)

/-- C8: printing an unsigned value into an `N`-byte octal field succeeds
exactly when the value is at most `8^(N-1) - 1` (one byte of the field is
reserved for the NUL terminator), in which case the field holds the octal
digits right-aligned with zero padding on the left before the terminator;
any larger value fails with the overflow error. -/
theorem print_octal_boundary (len v : Nat) (hlen : 1 ≤ len)
    (hv : v ≤ UINT_MAX) :
    (v ≤ 8 ^ (len - 1) - 1 →
      print_octal len v =
        .ok (List.replicate (len - 1 - (octalDigits v).length) 48 ++
          octalDigits v ++ [0])) ∧
    (8 ^ (len - 1) - 1 < v →
      print_octal len v = .error MTAR_EOVERFLOW) := by
  have hpow : 0 < 8 ^ (len - 1) := Nat.pos_pow_of_pos _ (by norm_num)
  constructor
  · intro h
    rw [print_octal_eq,
      if_pos ((octalDigits_length_le (len - 1) v).mpr (by omega))]
    rfl
  · intro h
    rw [print_octal_eq, if_neg]
    intro hc
    have := (octalDigits_length_le (len - 1) v).mp hc
    omega

/-- C8 witness: an 8-byte field at the boundary value `8^7 - 1`. -/
theorem print_octal_boundary_witness :
    1 ≤ 8 ∧ 8 ^ 7 - 1 ≤ UINT_MAX ∧
    ((8 ^ 7 - 1 ≤ 8 ^ (8 - 1) - 1 →
      print_octal 8 (8 ^ 7 - 1) =
        .ok (List.replicate (8 - 1 - (octalDigits (8 ^ 7 - 1)).length) 48 ++
          octalDigits (8 ^ 7 - 1) ++ [0])) ∧
    (8 ^ (8 - 1) - 1 < 8 ^ 7 - 1 →
      print_octal 8 (8 ^ 7 - 1) = .error MTAR_EOVERFLOW)) :=
  ⟨by norm_num, by norm_num [UINT_MAX],
   print_octal_boundary 8 (8 ^ 7 - 1) (by norm_num) (by norm_num [UINT_MAX])⟩

/-- Reduction of an `Except` bind on a success value. -/
theorem except_bind_ok {α β : Type} (a : α) (f : α → Except Int β) :
    (Except.ok a >>= f : Except Int β) = f a := rfl

/-- Indexing with a default distributes over `drop`. -/
theorem getD_drop (l : List Nat) (n : Nat) :
    l.getD n 0 = (l.drop n).getD 0 0 := by
  induction n generalizing l with
  | zero => simp
  | succ m ih =>
    cases l with
    | nil => simp
    | cons x xs => simpa using ih xs

/-- The first element of an append comes from a nonempty left part. -/
theorem getD_zero_append (X Y : List Nat) (h : X ≠ []) :
    (X ++ Y).getD 0 0 = X.getD 0 0 := by
  cases X with
  | nil => exact absurd rfl h
  | cons x xs => simp

/-- The first element survives a nonempty `take`. -/
theorem take_getD_zero (l : List Nat) (m : Nat) :
    (l.take (m + 1)).getD 0 0 = l.getD 0 0 := by
  cases l with
  | nil => simp
  | cons x xs => simp

/-- An octal field is never empty. -/
theorem octField_ne_nil (len v : Nat) : octField len v ≠ [] := by
  simp [octField]

/-- The first byte of an octal field of at least two bytes is an ASCII
digit, hence nonzero. -/
theorem octField_getD_ge (len v : Nat) (hlen : 2 ≤ len) :
    48 ≤ (octField len v).getD 0 0 := by
  rcases Nat.eq_zero_or_pos (len - 1 - (octalDigits v).length) with hk | hk
  · have hd : octalDigits v ≠ [] := by
      intro h0
      rw [h0] at hk
      simp at hk
      omega
    obtain ⟨d, ds, hds⟩ := List.exists_cons_of_ne_nil hd
    have hdm : 48 ≤ d ∧ d ≤ 55 :=
      octalDigits_mem v d (by rw [hds]; exact List.mem_cons_self d ds)
    rw [octField, hk, hds]
    simpa using hdm.1
  · obtain ⟨k, hk'⟩ : ∃ k, len - 1 - (octalDigits v).length = k + 1 :=
      ⟨len - 1 - (octalDigits v).length - 1, by omega⟩
    rw [octField, hk', List.replicate_succ]
    simp

/-- Every byte of an octal field is below 256. -/
theorem octField_bytes (len v : Nat) : ∀ b ∈ octField len v, b ≤ 255 := by
  intro b hb
  rw [octField] at hb
  rcases List.mem_append.mp hb with hb | hb
  · rcases List.mem_append.mp hb with hb | hb
    · rcases List.mem_replicate.mp hb with ⟨_, rfl⟩; omega
    · have := octalDigits_mem v b hb; omega
  · simp at hb; omega

/-- The copied field of `strncpy` has exactly the field width. -/
theorem strncpyField_length (l : List Nat) (n : Nat) :
    (strncpyField l n).length = n := by
  simp [strncpyField]
  omega

/-- Bytes of a `strncpy` field are bytes of the source or NUL padding. -/
theorem strncpyField_bytes (l : List Nat) (n : Nat)
    (hb : ∀ b ∈ l, b ≤ 255) : ∀ b ∈ strncpyField l n, b ≤ 255 := by
  intro b hmem
  rw [strncpyField] at hmem
  rcases List.mem_append.mp hmem with hm | hm
  · exact hb b (List.take_subset n l hm)
  · rcases List.mem_replicate.mp hm with ⟨_, rfl⟩; omega

/-- A list of bytes sums to at most 255 per element. -/
theorem sum_le_255 (l : List Nat) (hb : ∀ b ∈ l, b ≤ 255) :
    l.sum ≤ l.length * 255 := by
  induction l with
  | nil => simp
  | cons x xs ih =>
    have hx := hb x (List.mem_cons_self x xs)
    have := ih (fun b hm => hb b (List.mem_cons_of_mem x hm))
    simp only [List.sum_cons, List.length_cons]
    calc x + xs.sum ≤ 255 + xs.length * 255 := by omega
      _ = (xs.length + 1) * 255 := by ring

/-- On a 512-byte block of genuine bytes, the checksum does not wrap and is
far below the capacity of its 7-digit octal field. -/
theorem checksum_bound (raw : List Nat) (hb : ∀ b ∈ raw, b ≤ 255)
    (hlen : raw.length ≤ 512) :
    checksum raw = 256 + (raw.take 148).sum + (raw.drop 156).sum ∧
    checksum raw ≤ 8 ^ 6 - 1 := by
  have h1 : (raw.take 148).sum ≤ 148 * 255 := by
    have := sum_le_255 (raw.take 148)
      (fun b hm => hb b (List.take_subset 148 raw hm))
    have hl : (raw.take 148).length ≤ 148 := by
      simp [List.length_take]
    calc (raw.take 148).sum ≤ (raw.take 148).length * 255 := this
      _ ≤ 148 * 255 := by omega
  have h2 : (raw.drop 156).sum ≤ 356 * 255 := by
    have := sum_le_255 (raw.drop 156)
      (fun b hm => hb b (List.drop_subset 156 raw hm))
    have hl : (raw.drop 156).length ≤ 356 := by
      simp [List.length_drop]
      omega
    calc (raw.drop 156).sum ≤ (raw.drop 156).length * 255 := this
      _ ≤ 356 * 255 := by omega
  have hsmall : 256 + (raw.take 148).sum + (raw.drop 156).sum < W32 := by
    have : W32 = 4294967296 := by norm_num [W32]
    omega
  constructor
  · rw [checksum, Nat.mod_eq_of_lt hsmall]
  · rw [checksum, Nat.mod_eq_of_lt hsmall]
    have : (8 : Nat) ^ 6 - 1 = 262143 := by norm_num
    omega

/-- A predicate holding everywhere makes `takeWhile` the identity. -/
theorem takeWhile_eq_self (p : Nat → Bool) (l : List Nat)
    (h : ∀ b ∈ l, p b = true) : l.takeWhile p = l := by
  induction l with
  | nil => rfl
  | cons x xs ih =>
    rw [List.takeWhile_cons, h x (List.mem_cons_self x xs)]
    rw [ih (fun b hm => h b (List.mem_cons_of_mem x hm))]
    simp

/-- Reading back a `strncpy`-filled field as a C string recovers the source
when it fits the field and has no NUL bytes. -/
theorem cstr_strncpyField (l : List Nat) (n : Nat) (hl : l.length ≤ n)
    (hb : ∀ b ∈ l, 0 < b) : cstr (strncpyField l n) = l := by
  rw [strncpyField, List.take_of_length_le hl, cstr, List.takeWhile_append]
  have hself : l.takeWhile (fun b => b != 0) = l :=
    takeWhile_eq_self _ l (fun b hm => by
      have := hb b hm
      simp [Nat.pos_iff_ne_zero.mp this])
  rw [hself]
  simp [List.takeWhile_replicate]

/-- The length of an assembled block with the standard field widths. -/
theorem assemble_length (na mo ow gr sz mt ck ty li pa : List Nat)
    (hna : na.length = 100) (hmo : mo.length = 8) (how : ow.length = 8)
    (hgr : gr.length = 8) (hsz : sz.length = 12) (hmt : mt.length = 12)
    (hck : ck.length = 8) (hty : ty.length = 1) (hli : li.length = 100)
    (hpa : pa.length = 255) :
    (assemble na mo ow gr sz mt ck ty li pa).length = 512 := by
  simp [assemble, hna, hmo, how, hgr, hsz, hmt, hck, hty, hli, hpa]

/-- Byte bound for an assembled block whose fields are all bytes. -/
theorem assemble_bytes (na mo ow gr sz mt ck ty li pa : List Nat)
    (hna : ∀ b ∈ na, b ≤ 255) (hmo : ∀ b ∈ mo, b ≤ 255)
    (how : ∀ b ∈ ow, b ≤ 255) (hgr : ∀ b ∈ gr, b ≤ 255)
    (hsz : ∀ b ∈ sz, b ≤ 255) (hmt : ∀ b ∈ mt, b ≤ 255)
    (hck : ∀ b ∈ ck, b ≤ 255) (hty : ∀ b ∈ ty, b ≤ 255)
    (hli : ∀ b ∈ li, b ≤ 255) (hpa : ∀ b ∈ pa, b ≤ 255) :
    ∀ b ∈ assemble na mo ow gr sz mt ck ty li pa, b ≤ 255 := by
  intro b hmem
  simp only [assemble, List.mem_append] at hmem
  rcases hmem with ((((((((hm | hm) | hm) | hm) | hm) | hm) | hm) | hm) | hm) | hm
  · exact hna b hm
  · exact hmo b hm
  · exact how b hm
  · exact hgr b hm
  · exact hsz b hm
  · exact hmt b hm
  · exact hck b hm
  · exact hty b hm
  · exact hli b hm
  · exact hpa b hm

/-- Slices of an assembled raw block at the field offsets of the on-disk
layout. -/
theorem assemble_slices (na mo ow gr sz mt ck ty li pa : List Nat)
    (hna : na.length = 100) (hmo : mo.length = 8) (how : ow.length = 8)
    (hgr : gr.length = 8) (hsz : sz.length = 12) (hmt : mt.length = 12)
    (hck : ck.length = 8) (hty : ty.length = 1) (hli : li.length = 100) :
    (assemble na mo ow gr sz mt ck ty li pa).take 100 = na ∧
    ((assemble na mo ow gr sz mt ck ty li pa).drop 100).take 8 = mo ∧
    ((assemble na mo ow gr sz mt ck ty li pa).drop 108).take 8 = ow ∧
    ((assemble na mo ow gr sz mt ck ty li pa).drop 116).take 8 = gr ∧
    ((assemble na mo ow gr sz mt ck ty li pa).drop 124).take 12 = sz ∧
    ((assemble na mo ow gr sz mt ck ty li pa).drop 136).take 12 = mt ∧
    ((assemble na mo ow gr sz mt ck ty li pa).drop 148).take 8 = ck ∧
    (assemble na mo ow gr sz mt ck ty li pa).take 148 =
      na ++ mo ++ ow ++ gr ++ sz ++ mt ∧
    (assemble na mo ow gr sz mt ck ty li pa).drop 148 = ck ++ ty ++ li ++ pa ∧
    (assemble na mo ow gr sz mt ck ty li pa).drop 156 = ty ++ li ++ pa ∧
    ((assemble na mo ow gr sz mt ck ty li pa).drop 157).take 100 = li := by
  refine ⟨?_, ?_, ?_, ?_, ?_, ?_, ?_, ?_, ?_, ?_, ?_⟩ <;>
    simp [assemble, List.drop_append_eq_append_drop,
      List.take_append_eq_append_take, hna, hmo, how, hgr, hsz, hmt, hck,
      hty, hli, List.take_of_length_le, List.drop_eq_nil_of_le]

/-- An octal field whose digits fit has exactly the field width. -/
theorem octField_length (len v : Nat) (hd : (octalDigits v).length ≤ len - 1)
    (h1 : 1 ≤ len) : (octField len v).length = len := by
  simp only [octField, List.length_append, List.length_replicate,
    List.length_singleton]
  omega

/-- Characterization of a successful header encode: with every numeric
field in range and genuine bytes in the string fields, `header_to_raw`
returns the assembled block whose checksum field holds the checksum of the
block with a zeroed checksum field, NUL-terminated and followed by a
space. -/
theorem header_to_raw_ok (h : MtarHeader)
    (hnb : ∀ b ∈ h.name, b ≤ 255) (hlb : ∀ b ∈ h.linkname, b ≤ 255)
    (hty : h.type ≤ 255)
    (hmode : h.mode ≤ 8 ^ 7 - 1) (howner : h.owner ≤ 8 ^ 7 - 1)
    (hgroup : h.group ≤ 8 ^ 7 - 1) (hsize : h.size ≤ UINT_MAX)
    (hmtime : h.mtime ≤ UINT_MAX) :
    header_to_raw h =
      .ok (assemble (strncpyField h.name 100) (octField 8 h.mode)
        (octField 8 h.owner) (octField 8 h.group) (octField 12 h.size)
        (octField 12 h.mtime)
        (octField 7 (checksum (assemble (strncpyField h.name 100)
            (octField 8 h.mode) (octField 8 h.owner) (octField 8 h.group)
            (octField 12 h.size) (octField 12 h.mtime) (List.replicate 8 0)
            [if h.type = 0 then MTAR_TREG else h.type]
            (strncpyField h.linkname 100) (List.replicate 255 0))) ++ [32])
        [if h.type = 0 then MTAR_TREG else h.type]
        (strncpyField h.linkname 100) (List.replicate 255 0)) := by
  have h87 : (8 : Nat) ^ 7 = 2097152 := by norm_num
  have h811 : (8 : Nat) ^ 11 = 8589934592 := by norm_num
  have hU : UINT_MAX = 4294967295 := by norm_num [UINT_MAX]
  have hdm : (octalDigits h.mode).length ≤ 7 :=
    (octalDigits_length_le 7 h.mode).mpr (by omega)
  have hdo : (octalDigits h.owner).length ≤ 7 :=
    (octalDigits_length_le 7 h.owner).mpr (by omega)
  have hdg : (octalDigits h.group).length ≤ 7 :=
    (octalDigits_length_le 7 h.group).mpr (by omega)
  have hds : (octalDigits h.size).length ≤ 11 :=
    (octalDigits_length_le 11 h.size).mpr (by omega)
  have hdt : (octalDigits h.mtime).length ≤ 11 :=
    (octalDigits_length_le 11 h.mtime).mpr (by omega)
  have emo : print_octal 8 h.mode = .ok (octField 8 h.mode) := by
    rw [print_octal_eq, if_pos hdm]
  have eow : print_octal 8 h.owner = .ok (octField 8 h.owner) := by
    rw [print_octal_eq, if_pos hdo]
  have egr : print_octal 8 h.group = .ok (octField 8 h.group) := by
    rw [print_octal_eq, if_pos hdg]
  have esz : print_octal 12 h.size = .ok (octField 12 h.size) := by
    rw [print_octal_eq, if_pos hds]
  have emt : print_octal 12 h.mtime = .ok (octField 12 h.mtime) := by
    rw [print_octal_eq, if_pos hdt]
  have htyb : ∀ b ∈ [if h.type = 0 then MTAR_TREG else h.type], b ≤ 255 := by
    intro b hm
    simp only [List.mem_singleton] at hm
    subst hm
    by_cases ht0 : h.type = 0
    · simp [ht0, MTAR_TREG]
    · simpa [ht0] using hty
  have hzb : ∀ k : Nat, ∀ b ∈ List.replicate k 0, b ≤ 255 := by
    intro k b hm
    rcases List.mem_replicate.mp hm with ⟨_, rfl⟩
    omega
  have hbytes := assemble_bytes (strncpyField h.name 100) (octField 8 h.mode)
    (octField 8 h.owner) (octField 8 h.group) (octField 12 h.size)
    (octField 12 h.mtime) (List.replicate 8 0)
    [if h.type = 0 then MTAR_TREG else h.type]
    (strncpyField h.linkname 100) (List.replicate 255 0)
    (strncpyField_bytes _ _ hnb) (octField_bytes _ _) (octField_bytes _ _)
    (octField_bytes _ _) (octField_bytes _ _) (octField_bytes _ _)
    (hzb 8) htyb (strncpyField_bytes _ _ hlb) (hzb 255)
  have hlen := assemble_length (strncpyField h.name 100) (octField 8 h.mode)
    (octField 8 h.owner) (octField 8 h.group) (octField 12 h.size)
    (octField 12 h.mtime) (List.replicate 8 0)
    [if h.type = 0 then MTAR_TREG else h.type]
    (strncpyField h.linkname 100) (List.replicate 255 0)
    (strncpyField_length _ _) (octField_length 8 h.mode hdm (by norm_num))
    (octField_length 8 h.owner hdo (by norm_num))
    (octField_length 8 h.group hdg (by norm_num))
    (octField_length 12 h.size hds (by norm_num))
    (octField_length 12 h.mtime hdt (by norm_num))
    (List.length_replicate 8 0) rfl (strncpyField_length _ _)
    (List.length_replicate 255 0)
  have hckb := checksum_bound _ hbytes (le_of_eq hlen)
  have h86 : (8 : Nat) ^ 6 = 262144 := by norm_num
  have hdc : (octalDigits (checksum (assemble (strncpyField h.name 100)
      (octField 8 h.mode) (octField 8 h.owner) (octField 8 h.group)
      (octField 12 h.size) (octField 12 h.mtime) (List.replicate 8 0)
      [if h.type = 0 then MTAR_TREG else h.type]
      (strncpyField h.linkname 100) (List.replicate 255 0)))).length ≤ 6 :=
    (octalDigits_length_le 6 _).mpr (by have := hckb.2; omega)
  have eck : print_octal 7 (checksum (assemble (strncpyField h.name 100)
      (octField 8 h.mode) (octField 8 h.owner) (octField 8 h.group)
      (octField 12 h.size) (octField 12 h.mtime) (List.replicate 8 0)
      [if h.type = 0 then MTAR_TREG else h.type]
      (strncpyField h.linkname 100) (List.replicate 255 0))) =
      .ok (octField 7 (checksum (assemble (strncpyField h.name 100)
        (octField 8 h.mode) (octField 8 h.owner) (octField 8 h.group)
        (octField 12 h.size) (octField 12 h.mtime) (List.replicate 8 0)
        [if h.type = 0 then MTAR_TREG else h.type]
        (strncpyField h.linkname 100) (List.replicate 255 0)))) := by
    rw [print_octal_eq, if_pos hdc]
  simp only [header_to_raw, emo, eow, egr, esz, emt, except_bind_ok, eck]

set_option maxRecDepth 4000 in
/-- Decoding an assembled block with octal fields in range, a nonzero type
byte, and NUL-free string fields recovers every field. -/
theorem raw_to_header_assembled (name link : List Nat)
    (mode owner group size mtime tyv ckv : Nat)
    (hname_len : name.length ≤ 100) (hname_b : ∀ b ∈ name, 0 < b)
    (hlink_len : link.length ≤ 100) (hlink_b : ∀ b ∈ link, 0 < b)
    (htyv : tyv ≠ 0)
    (hmode : mode ≤ UINT_MAX) (howner : owner ≤ UINT_MAX)
    (hgroup : group ≤ UINT_MAX) (hsize : size ≤ UINT_MAX)
    (hmtime : mtime ≤ UINT_MAX) (hckv : ckv ≤ UINT_MAX)
    (hdm : (octalDigits mode).length ≤ 7) (hdo : (octalDigits owner).length ≤ 7)
    (hdg : (octalDigits group).length ≤ 7) (hdsz : (octalDigits size).length ≤ 11)
    (hdmt : (octalDigits mtime).length ≤ 11) (hdc : (octalDigits ckv).length ≤ 6)
    (hcksum : checksum (assemble (strncpyField name 100) (octField 8 mode)
      (octField 8 owner) (octField 8 group) (octField 12 size)
      (octField 12 mtime) (octField 7 ckv ++ [32]) [tyv]
      (strncpyField link 100) (List.replicate 255 0)) = ckv) :
    raw_to_header (assemble (strncpyField name 100) (octField 8 mode)
      (octField 8 owner) (octField 8 group) (octField 12 size)
      (octField 12 mtime) (octField 7 ckv ++ [32]) [tyv]
      (strncpyField link 100) (List.replicate 255 0)) =
      .ok ⟨mode, owner, group, size, mtime, tyv, name, link⟩ := by
  obtain ⟨s1, s2, s3, s4, s5, s6, s7, s8, s9, s10, s11⟩ :=
    assemble_slices (strncpyField name 100) (octField 8 mode)
      (octField 8 owner) (octField 8 group) (octField 12 size)
      (octField 12 mtime) (octField 7 ckv ++ [32]) [tyv]
      (strncpyField link 100) (List.replicate 255 0)
      (strncpyField_length _ _) (octField_length 8 mode hdm (by norm_num))
      (octField_length 8 owner hdo (by norm_num))
      (octField_length 8 group hdg (by norm_num))
      (octField_length 12 size hdsz (by norm_num))
      (octField_length 12 mtime hdmt (by norm_num))
      (by simp [octField_length 7 ckv hdc (by norm_num)]) rfl
      (strncpyField_length _ _)
  obtain ⟨c, cs, hcc⟩ := List.exists_cons_of_ne_nil (octField_ne_nil 7 ckv)
  have hc48 : 48 ≤ c := by
    have := octField_getD_ge 7 ckv (by norm_num)
    rw [hcc] at this
    simpa using this
  have hnull : (assemble (strncpyField name 100) (octField 8 mode)
      (octField 8 owner) (octField 8 group) (octField 12 size)
      (octField 12 mtime) (octField 7 ckv ++ [32]) [tyv]
      (strncpyField link 100) (List.replicate 255 0)).getD 148 0 ≠ 0 := by
    rw [getD_drop, s9, hcc]
    simp only [List.cons_append, List.getD_cons_zero]
    omega
  have hparse_ck : parse_octal (octField 7 ckv ++ [32]) 8 = .ok ckv := by
    rw [octField]
    simpa [List.append_assoc] using
      parse_octal_padded (7 - 1 - (octalDigits ckv).length) ckv [32] 8 hckv
        (by omega)
  have hparse_mo : parse_octal (octField 8 mode) 8 = .ok mode := by
    rw [octField]
    simpa [List.append_assoc] using
      parse_octal_padded (8 - 1 - (octalDigits mode).length) mode [] 8 hmode
        (by omega)
  have hparse_ow : parse_octal (octField 8 owner) 8 = .ok owner := by
    rw [octField]
    simpa [List.append_assoc] using
      parse_octal_padded (8 - 1 - (octalDigits owner).length) owner [] 8 howner
        (by omega)
  have hparse_gr : parse_octal (octField 8 group) 8 = .ok group := by
    rw [octField]
    simpa [List.append_assoc] using
      parse_octal_padded (8 - 1 - (octalDigits group).length) group [] 8 hgroup
        (by omega)
  have hparse_sz : parse_octal (octField 12 size) 12 = .ok size := by
    rw [octField]
    simpa [List.append_assoc] using
      parse_octal_padded (12 - 1 - (octalDigits size).length) size [] 12 hsize
        (by omega)
  have hparse_mt : parse_octal (octField 12 mtime) 12 = .ok mtime := by
    rw [octField]
    simpa [List.append_assoc] using
      parse_octal_padded (12 - 1 - (octalDigits mtime).length) mtime [] 12
        hmtime (by omega)
  have hty156 : (assemble (strncpyField name 100) (octField 8 mode)
      (octField 8 owner) (octField 8 group) (octField 12 size)
      (octField 12 mtime) (octField 7 ckv ++ [32]) [tyv]
      (strncpyField link 100) (List.replicate 255 0)).getD 156 0 = tyv := by
    rw [getD_drop, s10]
    simp
  simp only [raw_to_header]
  rw [if_neg hnull, s7, hparse_ck, except_bind_ok, hcksum,
    if_neg (show ¬ ckv ≠ ckv by simp), s2, hparse_mo, except_bind_ok,
    s3, hparse_ow, except_bind_ok, s4, hparse_gr, except_bind_ok,
    s5, hparse_sz, except_bind_ok, s6, hparse_mt, except_bind_ok,
    hty156, if_neg htyv, s1,
    cstr_strncpyField name 100 hname_len hname_b, s11,
    cstr_strncpyField link 100 hlink_len hlink_b]

/-- The checksum only depends on the bytes outside the checksum field. -/
theorem checksum_congr (X Y : List Nat) (h1 : X.take 148 = Y.take 148)
    (h2 : X.drop 156 = Y.drop 156) : checksum X = checksum Y := by
  rw [checksum, checksum, h1, h2]

/-- Inversion of a successful `Except` bind. -/
theorem except_bind_eq_ok {α β : Type} {x : Except Int α}
    {f : α → Except Int β} {b : β} (h : (x >>= f) = .ok b) :
    ∃ a, x = .ok a ∧ f a = .ok b := by
  cases x with
  | error e => exact absurd h (by simp [Bind.bind, Except.bind])
  | ok a => exact ⟨a, rfl, h⟩

set_option maxRecDepth 8000 in
/-- C4: encoding a header whose name and linkname are NUL-free byte strings
of at most 100 bytes and whose numeric fields fit their octal fields (the
12-byte fields are additionally bounded by the `unsigned` range) and then
decoding the 512-byte block succeeds and returns the same header record, up
to normalizing a zero type byte to the regular-file tag. -/
theorem header_round_trip (h : MtarHeader)
    (hname_len : h.name.length ≤ 100)
    (hname_b : ∀ b ∈ h.name, 0 < b ∧ b ≤ 255)
    (hlink_len : h.linkname.length ≤ 100)
    (hlink_b : ∀ b ∈ h.linkname, 0 < b ∧ b ≤ 255)
    (htype : h.type ≤ 255)
    (hmode : h.mode ≤ 8 ^ 7 - 1) (howner : h.owner ≤ 8 ^ 7 - 1)
    (hgroup : h.group ≤ 8 ^ 7 - 1)
    (hsize : h.size ≤ UINT_MAX) (hmtime : h.mtime ≤ UINT_MAX) :
    (header_to_raw h >>= raw_to_header) =
      .ok { h with type := if h.type = 0 then MTAR_TREG else h.type } := by
  have h87 : (8 : Nat) ^ 7 = 2097152 := by norm_num
  have h86 : (8 : Nat) ^ 6 = 262144 := by norm_num
  have hU : UINT_MAX = 4294967295 := by norm_num [UINT_MAX]
  have hdm : (octalDigits h.mode).length ≤ 7 :=
    (octalDigits_length_le 7 h.mode).mpr (by omega)
  have hdo : (octalDigits h.owner).length ≤ 7 :=
    (octalDigits_length_le 7 h.owner).mpr (by omega)
  have hdg : (octalDigits h.group).length ≤ 7 :=
    (octalDigits_length_le 7 h.group).mpr (by omega)
  have h811 : (8 : Nat) ^ 11 = 8589934592 := by norm_num
  have hds : (octalDigits h.size).length ≤ 11 :=
    (octalDigits_length_le 11 h.size).mpr (by omega)
  have hdt : (octalDigits h.mtime).length ≤ 11 :=
    (octalDigits_length_le 11 h.mtime).mpr (by omega)
  have htyb : ∀ b ∈ [if h.type = 0 then MTAR_TREG else h.type], b ≤ 255 := by
    intro b hm
    simp only [List.mem_singleton] at hm
    subst hm
    by_cases ht0 : h.type = 0
    · simp [ht0, MTAR_TREG]
    · simpa [ht0] using htype
  have hzb : ∀ k : Nat, ∀ b ∈ List.replicate k 0, b ≤ 255 := by
    intro k b hm
    rcases List.mem_replicate.mp hm with ⟨_, rfl⟩
    omega
  have hbytes := assemble_bytes (strncpyField h.name 100) (octField 8 h.mode)
    (octField 8 h.owner) (octField 8 h.group) (octField 12 h.size)
    (octField 12 h.mtime) (List.replicate 8 0)
    [if h.type = 0 then MTAR_TREG else h.type]
    (strncpyField h.linkname 100) (List.replicate 255 0)
    (strncpyField_bytes _ _ (fun b hb => (hname_b b hb).2)) (octField_bytes _ _)
    (octField_bytes _ _) (octField_bytes _ _) (octField_bytes _ _)
    (octField_bytes _ _) (hzb 8) htyb
    (strncpyField_bytes _ _ (fun b hb => (hlink_b b hb).2)) (hzb 255)
  have hlen := assemble_length (strncpyField h.name 100) (octField 8 h.mode)
    (octField 8 h.owner) (octField 8 h.group) (octField 12 h.size)
    (octField 12 h.mtime) (List.replicate 8 0)
    [if h.type = 0 then MTAR_TREG else h.type]
    (strncpyField h.linkname 100) (List.replicate 255 0)
    (strncpyField_length _ _) (octField_length 8 h.mode hdm (by norm_num))
    (octField_length 8 h.owner hdo (by norm_num))
    (octField_length 8 h.group hdg (by norm_num))
    (octField_length 12 h.size hds (by norm_num))
    (octField_length 12 h.mtime hdt (by norm_num))
    (List.length_replicate 8 0) rfl (strncpyField_length _ _)
    (List.length_replicate 255 0)
  have hckb := checksum_bound _ hbytes (le_of_eq hlen)
  have hdc : (octalDigits (checksum (assemble (strncpyField h.name 100)
      (octField 8 h.mode) (octField 8 h.owner) (octField 8 h.group)
      (octField 12 h.size) (octField 12 h.mtime) (List.replicate 8 0)
      [if h.type = 0 then MTAR_TREG else h.type]
      (strncpyField h.linkname 100) (List.replicate 255 0)))).length ≤ 6 :=
    (octalDigits_length_le 6 _).mpr (by have := hckb.2; omega)
  have hckU : checksum (assemble (strncpyField h.name 100)
      (octField 8 h.mode) (octField 8 h.owner) (octField 8 h.group)
      (octField 12 h.size) (octField 12 h.mtime) (List.replicate 8 0)
      [if h.type = 0 then MTAR_TREG else h.type]
      (strncpyField h.linkname 100) (List.replicate 255 0)) ≤ UINT_MAX := by
    have := hckb.2
    omega
  have htyv : (if h.type = 0 then MTAR_TREG else h.type) ≠ 0 := by
    by_cases ht0 : h.type = 0
    · simp [ht0, MTAR_TREG]
    · simpa [ht0] using ht0
  have hcksum : checksum (assemble (strncpyField h.name 100)
      (octField 8 h.mode) (octField 8 h.owner) (octField 8 h.group)
      (octField 12 h.size) (octField 12 h.mtime)
      (octField 7 (checksum (assemble (strncpyField h.name 100)
        (octField 8 h.mode) (octField 8 h.owner) (octField 8 h.group)
        (octField 12 h.size) (octField 12 h.mtime) (List.replicate 8 0)
        [if h.type = 0 then MTAR_TREG else h.type]
        (strncpyField h.linkname 100) (List.replicate 255 0))) ++ [32])
      [if h.type = 0 then MTAR_TREG else h.type]
      (strncpyField h.linkname 100) (List.replicate 255 0)) =
      checksum (assemble (strncpyField h.name 100)
        (octField 8 h.mode) (octField 8 h.owner) (octField 8 h.group)
        (octField 12 h.size) (octField 12 h.mtime) (List.replicate 8 0)
        [if h.type = 0 then MTAR_TREG else h.type]
        (strncpyField h.linkname 100) (List.replicate 255 0)) := by
    obtain ⟨_, _, _, _, _, _, _, f8, _, f10, _⟩ :=
      assemble_slices (strncpyField h.name 100) (octField 8 h.mode)
        (octField 8 h.owner) (octField 8 h.group) (octField 12 h.size)
        (octField 12 h.mtime)
        (octField 7 (checksum (assemble (strncpyField h.name 100)
          (octField 8 h.mode) (octField 8 h.owner) (octField 8 h.group)
          (octField 12 h.size) (octField 12 h.mtime) (List.replicate 8 0)
          [if h.type = 0 then MTAR_TREG else h.type]
          (strncpyField h.linkname 100) (List.replicate 255 0))) ++ [32])
        [if h.type = 0 then MTAR_TREG else h.type]
        (strncpyField h.linkname 100) (List.replicate 255 0)
        (strncpyField_length _ _) (octField_length 8 h.mode hdm (by norm_num))
        (octField_length 8 h.owner hdo (by norm_num))
        (octField_length 8 h.group hdg (by norm_num))
        (octField_length 12 h.size hds (by norm_num))
        (octField_length 12 h.mtime hdt (by norm_num))
        (by rw [List.length_append, octField_length 7 _ hdc (by norm_num)]; rfl)
        rfl (strncpyField_length _ _)
    obtain ⟨_, _, _, _, _, _, _, z8, _, z10, _⟩ :=
      assemble_slices (strncpyField h.name 100) (octField 8 h.mode)
        (octField 8 h.owner) (octField 8 h.group) (octField 12 h.size)
        (octField 12 h.mtime) (List.replicate 8 0)
        [if h.type = 0 then MTAR_TREG else h.type]
        (strncpyField h.linkname 100) (List.replicate 255 0)
        (strncpyField_length _ _) (octField_length 8 h.mode hdm (by norm_num))
        (octField_length 8 h.owner hdo (by norm_num))
        (octField_length 8 h.group hdg (by norm_num))
        (octField_length 12 h.size hds (by norm_num))
        (octField_length 12 h.mtime hdt (by norm_num))
        (List.length_replicate 8 0) rfl (strncpyField_length _ _)
    exact checksum_congr _ _ (f8.trans z8.symm) (f10.trans z10.symm)
  rw [header_to_raw_ok h (fun b hb => (hname_b b hb).2)
    (fun b hb => (hlink_b b hb).2) htype hmode howner hgroup hsize hmtime,
    except_bind_ok]
  exact raw_to_header_assembled h.name h.linkname h.mode h.owner h.group
    h.size h.mtime (if h.type = 0 then MTAR_TREG else h.type) _
    hname_len (fun b hb => (hname_b b hb).1)
    hlink_len (fun b hb => (hlink_b b hb).1) htyv
    (by omega) (by omega) (by omega) hsize hmtime hckU
    hdm hdo hdg hds hdt hdc hcksum

/-- C4 witness: the round trip at a concrete regular-file header with name
`"ab"`, linkname `"c"`, and small nonzero numeric fields. -/
theorem header_round_trip_witness :
    hdr1.name.length ≤ 100 ∧ (∀ b ∈ hdr1.name, 0 < b ∧ b ≤ 255) ∧
    hdr1.linkname.length ≤ 100 ∧ (∀ b ∈ hdr1.linkname, 0 < b ∧ b ≤ 255) ∧
    hdr1.type ≤ 255 ∧ hdr1.mode ≤ 8 ^ 7 - 1 ∧ hdr1.owner ≤ 8 ^ 7 - 1 ∧
    hdr1.group ≤ 8 ^ 7 - 1 ∧ hdr1.size ≤ UINT_MAX ∧ hdr1.mtime ≤ UINT_MAX ∧
    (header_to_raw hdr1 >>= raw_to_header) =
      .ok { hdr1 with
        type := if hdr1.type = 0 then MTAR_TREG else hdr1.type } :=
  ⟨by decide, by decide, by decide, by decide, by decide, by decide,
   by decide, by decide, by decide, by decide,
   header_round_trip hdr1 (by decide) (by decide) (by decide) (by decide)
     (by decide) (by decide) (by decide) (by decide) (by decide) (by decide)⟩

set_option maxRecDepth 100000 in
/-- C5 counterexample: in the encoded block of the all-zero header record,
the byte at offset 154 — the last of the seven bytes the claim says hold
octal digits — is the printer's NUL terminator, not an ASCII octal digit
(the checksum digits occupy offsets 148..153 only), while offset 155 holds
the literal space.  The claim's layout of 7 digits at 148..154 is therefore
false on the code. -/
theorem checksum_field_seven_digits_false :
    header_to_raw hdr0 = .ok raw0 ∧ raw0.getD 154 0 = 0 ∧
    raw0.getD 155 0 = 32 ∧ ¬ (48 ≤ raw0.getD 154 0 ∧ raw0.getD 154 0 ≤ 55) :=
  ⟨rfl, by decide, by decide, by decide⟩

set_option maxRecDepth 8000 in
/-- C5 amended: for every header that `header_to_raw` accepts, the checksum
field of the produced block consists of the octal digits of the checksum
value zero-padded to 6 digits in bytes 148..153, a NUL byte at offset 154,
and a literal space at offset 155, where the checksum value is 256 plus the
sum of bytes 0..147 plus the sum of bytes 156..511 (in 32-bit unsigned
arithmetic). -/
theorem checksum_field_layout (h : MtarHeader) (raw : List Nat)
    (hok : header_to_raw h = .ok raw) :
    (raw.drop 148).take 8 =
      List.replicate (6 - (octalDigits (checksum raw)).length) 48 ++
        octalDigits (checksum raw) ++ [0, 32] ∧
    (octalDigits (checksum raw)).length ≤ 6 ∧
    checksum raw = (256 + (raw.take 148).sum + (raw.drop 156).sum) % W32 := by
  simp only [header_to_raw] at hok
  obtain ⟨mo, emo, hok⟩ := except_bind_eq_ok hok
  obtain ⟨ow, eow, hok⟩ := except_bind_eq_ok hok
  obtain ⟨gr, egr, hok⟩ := except_bind_eq_ok hok
  obtain ⟨sz, esz, hok⟩ := except_bind_eq_ok hok
  obtain ⟨mt, emt, hok⟩ := except_bind_eq_ok hok
  obtain ⟨ck, eck, hok⟩ := except_bind_eq_ok hok
  have hraw : raw = assemble (strncpyField h.name 100) mo ow gr sz mt
      (ck ++ [32]) [if h.type = 0 then MTAR_TREG else h.type]
      (strncpyField h.linkname 100) (List.replicate 255 0) := by
    injection hok with h'
    exact h'.symm
  obtain ⟨hdm, hmoE, hmoL⟩ := print_octal_ok_inv 8 h.mode mo (by norm_num) emo
  obtain ⟨hdo, howE, howL⟩ := print_octal_ok_inv 8 h.owner ow (by norm_num) eow
  obtain ⟨hdg, hgrE, hgrL⟩ := print_octal_ok_inv 8 h.group gr (by norm_num) egr
  obtain ⟨hdsz, hszE, hszL⟩ :=
    print_octal_ok_inv 12 h.size sz (by norm_num) esz
  obtain ⟨hdmt, hmtE, hmtL⟩ :=
    print_octal_ok_inv 12 h.mtime mt (by norm_num) emt
  obtain ⟨hdc, hckE, hckL⟩ := print_octal_ok_inv 7 _ ck (by norm_num) eck
  obtain ⟨_, _, _, _, _, _, f7, f8, _, f10, _⟩ :=
    assemble_slices (strncpyField h.name 100) mo ow gr sz mt (ck ++ [32])
      [if h.type = 0 then MTAR_TREG else h.type]
      (strncpyField h.linkname 100) (List.replicate 255 0)
      (strncpyField_length _ _) hmoL howL hgrL hszL hmtL
      (by rw [List.length_append, hckL]; rfl) rfl (strncpyField_length _ _)
  obtain ⟨_, _, _, _, _, _, _, z8, _, z10, _⟩ :=
    assemble_slices (strncpyField h.name 100) mo ow gr sz mt
      (List.replicate 8 0) [if h.type = 0 then MTAR_TREG else h.type]
      (strncpyField h.linkname 100) (List.replicate 255 0)
      (strncpyField_length _ _) hmoL howL hgrL hszL hmtL
      (List.length_replicate 8 0) rfl (strncpyField_length _ _)
  have hcksumRaw : checksum raw = checksum (assemble (strncpyField h.name 100)
      mo ow gr sz mt (List.replicate 8 0)
      [if h.type = 0 then MTAR_TREG else h.type]
      (strncpyField h.linkname 100) (List.replicate 255 0)) := by
    rw [hraw]
    exact checksum_congr _ _ (f8.trans z8.symm) (f10.trans z10.symm)
  refine ⟨?_, ?_, rfl⟩
  · rw [hcksumRaw, hraw, f7, hckE, octField]
    simp [List.append_assoc]
  · rw [hcksumRaw]
    exact hdc

set_option maxRecDepth 100000 in
/-- C5 witness: the amended layout at the encoded all-zero header. -/
theorem checksum_field_layout_witness :
    (raw0.drop 148).take 8 =
      List.replicate (6 - (octalDigits (checksum raw0)).length) 48 ++
        octalDigits (checksum raw0) ++ [0, 32] ∧
    (octalDigits (checksum raw0)).length ≤ 6 ∧
    checksum raw0 = (256 + (raw0.take 148).sum + (raw0.drop 156).sum) % W32 :=
  checksum_field_layout hdr0 raw0 rfl

end Microtar
